import Mathlib

/-!
Verification of the Postman collection subset generator
(`build/postman_operations.py` and the exit-code mapping of
`build/generate_postman_collection_subset.py`).

JSON values decoded by Python's `json.load` are modelled by the inductive
type `Json` below: mappings become ordered association lists (Python dicts
preserve insertion order and cannot hold duplicate keys, so the theorems
that depend on dict-lookup semantics carry a duplicate-free-keys
hypothesis `nodupWF`), numbers are modelled as integers (no claim depends
on fractional values), and the `logger` argument threaded through the
Python functions only emits log lines and never affects the returned
value, so it is omitted from the embedding.
-/

inductive Json where
  | null : Json
  | bool : Bool → Json
  | num  : Int → Json
  | str  : String → Json
  | arr  : List Json → Json
  | obj  : List (String × Json) → Json
deriving Repr

mutual

/-- Structural equality of decoded JSON values, used only to give `Json`
a decidable equality for stating theorems.  Python's `==` — under which
`True == 1` because `bool` subclasses `int` — is modelled separately by
`pyEq` below and used wherever the source compares decoded values. -/
def jeq : Json → Json → Bool
  | .null, .null => true
  | .bool a, .bool b => a == b
  | .num a, .num b => a == b
  | .str a, .str b => a == b
  | .arr xs, .arr ys => jeqList xs ys
  | .obj ps, .obj qs => jeqPairs ps qs
  | _, _ => false

def jeqList : List Json → List Json → Bool
  | [], [] => true
  | x :: xs, y :: ys => jeq x y && jeqList xs ys
  | _, _ => false

def jeqPairs : List (String × Json) → List (String × Json) → Bool
  | [], [] => true
  | (k, v) :: ps, (l, w) :: qs => k == l && (jeq v w && jeqPairs ps qs)
  | _, _ => false

end

theorem sizeOf_snd_lt_of_mem {p : String × Json} {ps : List (String × Json)}
    (h : p ∈ ps) : sizeOf p.2 < sizeOf ps := by
  have h1 : sizeOf p < sizeOf ps := List.sizeOf_lt_of_mem h
  have h2 : sizeOf p.2 < sizeOf p := by
    obtain ⟨k, v⟩ := p
    simp
  omega

/-- Strong induction over `Json`, giving hypotheses for the members of the
nested lists. -/
def jsonInd (P : Json → Prop)
    (hnull : P .null) (hbool : ∀ b, P (.bool b)) (hnum : ∀ n, P (.num n))
    (hstr : ∀ s, P (.str s))
    (harr : ∀ xs, (∀ x ∈ xs, P x) → P (.arr xs))
    (hobj : ∀ pairs, (∀ p ∈ pairs, P p.2) → P (.obj pairs)) :
    ∀ t, P t
  | .null => hnull
  | .bool b => hbool b
  | .num n => hnum n
  | .str s => hstr s
  | .arr xs => harr xs (fun x hx =>
      have : sizeOf x < 1 + sizeOf xs := by
        have := List.sizeOf_lt_of_mem hx
        omega
      jsonInd P hnull hbool hnum hstr harr hobj x)
  | .obj ps => hobj ps (fun p hp =>
      have : sizeOf p.2 < 1 + sizeOf ps := by
        have := sizeOf_snd_lt_of_mem hp
        omega
      jsonInd P hnull hbool hnum hstr harr hobj p.2)
termination_by t => sizeOf t

theorem jeqList_iff (xs : List Json)
    (ih : ∀ x ∈ xs, ∀ b, jeq x b = true ↔ x = b) :
    ∀ ys, jeqList xs ys = true ↔ xs = ys := by
  induction xs with
  | nil => intro ys; cases ys <;> simp [jeqList]
  | cons x xs ihl =>
    intro ys
    cases ys with
    | nil => simp [jeqList]
    | cons y ys =>
      have hx := ih x (by simp)
      have hrest := ihl (fun z hz => ih z (by simp [hz]))
      simp [jeqList, hx y, hrest ys]

theorem jeqPairs_iff (ps : List (String × Json))
    (ih : ∀ p ∈ ps, ∀ b, jeq p.2 b = true ↔ p.2 = b) :
    ∀ qs, jeqPairs ps qs = true ↔ ps = qs := by
  induction ps with
  | nil => intro qs; cases qs <;> simp [jeqPairs]
  | cons p ps ihl =>
    intro qs
    cases qs with
    | nil => obtain ⟨k, v⟩ := p; simp [jeqPairs]
    | cons q qs =>
      obtain ⟨k, v⟩ := p
      obtain ⟨l, w⟩ := q
      have hv := ih (k, v) (by simp)
      have hrest := ihl (fun z hz => ih z (by simp [hz]))
      simp [jeqPairs, hv w, hrest qs, and_assoc]

theorem jeq_iff : ∀ a b : Json, jeq a b = true ↔ a = b := by
  intro a
  induction a using jsonInd with
  | hnull => intro b; cases b <;> simp [jeq]
  | hbool x => intro b; cases b <;> simp [jeq]
  | hnum x => intro b; cases b <;> simp [jeq]
  | hstr x => intro b; cases b <;> simp [jeq]
  | harr xs ih =>
    intro b
    cases b <;> simp [jeq]
    exact jeqList_iff xs ih _
  | hobj ps ih =>
    intro b
    cases b <;> simp [jeq]
    exact jeqPairs_iff ps ih _

instance : DecidableEq Json := fun a b => decidable_of_iff _ (jeq_iff a b)

/-- Python `d[key]` / `key in d` on a dict, as first-match lookup on the
ordered association list. -/
def Json.lookup : List (String × Json) → String → Option Json
  | [], _ => none
  | (k, v) :: rest, key => if k = key then some v else Json.lookup rest key

/-- Python truthiness of a decoded JSON value (`not x` in the source tests
this): `None`, `False`, `0`, `""`, `[]` and `{}` are falsy. -/
def pyFalsy : Json → Bool
  | .null => true
  | .bool b => !b
  | .num n => n == 0
  | .str s => s == ""
  | .arr xs => xs.isEmpty
  | .obj ps => ps.isEmpty

/-- `'item' in data` for a dict. -/
def hasKey (pairs : List (String × Json)) (k : String) : Bool :=
  (Json.lookup pairs k).isSome

mutual

/-- `remove_descriptions` from `build/postman_operations.py`: dict branch
builds a new dict skipping the key `description` and recursing on values,
list branch maps the recursion, any other value is returned unchanged. -/
def remove_descriptions : Json → Json
  | .obj pairs => .obj (removeDescPairs pairs)
  | .arr xs => .arr (removeDescList xs)
  | .null => .null
  | .bool b => .bool b
  | .num n => .num n
  | .str s => .str s

/-- The dict loop of `remove_descriptions`: `for key, value in data.items()`,
skipping `key == 'description'`. -/
def removeDescPairs : List (String × Json) → List (String × Json)
  | [] => []
  | (k, v) :: rest =>
    if k = "description" then removeDescPairs rest
    else (k, remove_descriptions v) :: removeDescPairs rest

/-- The list comprehension of `remove_descriptions`. -/
def removeDescList : List Json → List Json
  | [] => []
  | x :: xs => remove_descriptions x :: removeDescList xs

end

/-- The guard at the top of the dict branch of `filter_by_endpoint_type`:
`'request' in data and isinstance(data['request'], dict) and
'method' in data['request']` and the method differs from the target
(Python `!=` between a decoded JSON value and the method string holds
exactly when the value is not that string). -/
def requestMismatch (m : String) (pairs : List (String × Json)) : Bool :=
  match Json.lookup pairs "request" with
  | some (.obj rp) =>
    match Json.lookup rp "method" with
    | some mv => decide (mv ≠ .str m)
    | none => false
  | _ => false

/-- `not result.get('item', [])` in the source: the freshly built dict
either lacks `item` (the `[]` default is falsy) or binds it to a falsy
value. -/
def itemGetFalsy (result : List (String × Json)) : Bool :=
  match Json.lookup result "item" with
  | none => true
  | some v => pyFalsy v

mutual

/-- `filter_by_endpoint_type` from `build/postman_operations.py`.
`none` models the Python `None` used to signal "absent".  Dict branch:
return `None` on a method mismatch, otherwise rebuild the dict from the
recursively filtered values, dropping `None` ones, and return `None` when
the original dict had an `item` key and `result.get('item', [])` is
falsy.  List branch: keep the non-`None` filtered elements, and return
`None` if none survive.  Scalars pass through. -/
def filterByEndpointType (m : String) : Json → Option Json
  | .obj pairs =>
    if requestMismatch m pairs then none
    else
      let result := filterPairs m pairs
      if hasKey pairs "item" && itemGetFalsy result then none
      else some (.obj result)
  | .arr xs =>
    let fl := filterList m xs
    if fl.isEmpty then none else some (.arr fl)
  | .null => some .null
  | .bool b => some (.bool b)
  | .num n => some (.num n)
  | .str s => some (.str s)

/-- The dict loop of `filter_by_endpoint_type`: keep each key whose
recursively filtered value is not `None`. -/
def filterPairs (m : String) : List (String × Json) → List (String × Json)
  | [] => []
  | (k, v) :: rest =>
    match filterByEndpointType m v with
    | none => filterPairs m rest
    | some v' => (k, v') :: filterPairs m rest

/-- The list comprehension of `filter_by_endpoint_type`: keep the
non-`None` filtered elements. -/
def filterList (m : String) : List Json → List Json
  | [] => []
  | x :: xs =>
    match filterByEndpointType m x with
    | none => filterList m xs
    | some x' => x' :: filterList m xs

end

/-- Python `item.get('name')` on a dict: the value bound to the key, or
`None` (JSON null) when absent. -/
def pyGet (pairs : List (String × Json)) (k : String) : Json :=
  (Json.lookup pairs k).getD Json.null

/-- Python `d['item'] = v` on a dict that already has the key: the binding
keeps its position, only its value changes. -/
def setKey : List (String × Json) → String → Json → List (String × Json)
  | [], _, _ => []
  | (k0, v0) :: rest, k, v =>
    if k0 = k then (k, v) :: setKey rest k v
    else (k0, v0) :: setKey rest k v

mutual

/-- Python `==` between decoded JSON values: `None` equals only `None`;
`bool` is an `int` subclass, so a boolean compares as its integer value
against a number (`True == 1`, `False == 0`); strings compare
structurally; lists compare elementwise; dicts compare by equal size and
per-key equal values, insertion order irrelevant; values of any other
pair of kinds are unequal.  (Numbers are integers in this model, which
collapses `1.0 == 1` the same way Python does.) -/
def pyEq : Json → Json → Bool
  | .null, .null => true
  | .bool a, .bool b => a == b
  | .bool a, .num n => (if a then (1 : Int) else 0) == n
  | .num n, .bool b => n == (if b then (1 : Int) else 0)
  | .num a, .num b => a == b
  | .str a, .str b => a == b
  | .arr xs, .arr ys => pyEqList xs ys
  | .obj ps, .obj qs => ps.length == qs.length && pyEqPairs ps qs
  | _, _ => false

def pyEqList : List Json → List Json → Bool
  | [], [] => true
  | x :: xs, y :: ys => pyEq x y && pyEqList xs ys
  | _, _ => false

/-- Every binding of the first dict has a `==`-equal binding in the
second; together with equal sizes this is Python dict equality. -/
def pyEqPairs : List (String × Json) → List (String × Json) → Bool
  | [], _ => true
  | (k, v) :: rest, qs =>
    (match Json.lookup qs k with
     | some w => pyEq v w
     | none => false) && pyEqPairs rest qs

end

/-- One element of the list comprehension in `filter_by_whitelist_folders`:
`item.get('name') in whitelist_folders`.  Python `in` tests the elements
with `==`, modelled by `pyEq` (so a whitelist entry `1` matches a name
`true`).  Python raises `AttributeError` for a non-dict element (`.get`
on a non-dict), modelled as `none`. -/
def whitelistKeep (wl : List Json) : Json → Option Bool
  | .obj ps => some (wl.any (pyEq (pyGet ps "name")))
  | _ => none

/-- The list comprehension of `filter_by_whitelist_folders`, evaluated left
to right; an `AttributeError` on any element aborts the whole call. -/
def filterItems (wl : List Json) : List Json → Option (List Json)
  | [] => some []
  | x :: xs =>
    match whitelistKeep wl x, filterItems wl xs with
    | some true, some rest => some (x :: rest)
    | some false, some rest => some rest
    | _, _ => none

/-- `filter_by_whitelist_folders` from `build/postman_operations.py`,
modelled as the value the call leaves in `data` (the source mutates
`data['item']` in place and returns `data`; the heap aliasing itself is not
a value-level notion).  A non-dict or `item`-less input is returned
unchanged.  `none` models an uncaught Python exception: a non-dict element
raises `AttributeError`, and a non-list `item` value raises on iteration
or on `.get` of its elements (the degenerate `''`/`{}` values that iterate
to nothing are outside every claim and also modelled as errors). -/
def filterByWhitelistFolders (data : Json) (wl : List Json) : Option Json :=
  match data with
  | .obj pairs =>
    match Json.lookup pairs "item" with
    | none => some (.obj pairs)
    | some (.arr items) =>
      match filterItems wl items with
      | some kept => some (.obj (setKey pairs "item" (.arr kept)))
      | none => none
    | some _ => none
  | d => some d

/-- What the file-reading collaborator hands `read_whitelist_folders`:
the `open` call raises `FileNotFoundError`, `json.load` raises
`JSONDecodeError`, or a JSON document is decoded.  The spec and the claims
speak only of parsed mapping documents, so the decoded case carries the
mapping's pairs. -/
inductive ReadOutcome where
  | notFound : ReadOutcome
  | malformed : ReadOutcome
  | parsed : List (String × Json) → ReadOutcome

/-- The error taxonomy of the tool, in the order `main` in
`build/generate_postman_collection_subset.py` catches them:
`FileNotFoundError`, `JSONDecodeError`, `KeyError`, any other exception. -/
inductive AppError where
  | notFound : AppError
  | malformedInput : AppError
  | missingKey : AppError
  | other : AppError
deriving DecidableEq, Repr

/-- `read_whitelist_folders` from `build/postman_operations.py`:
`FileNotFoundError` and `JSONDecodeError` propagate (the `except` clause
re-raises the latter); a parsed mapping without a `folders` key raises
`KeyError`; otherwise `data['folders']` is returned. -/
def read_whitelist_folders : ReadOutcome → Except AppError Json
  | .notFound => .error .notFound
  | .malformed => .error .malformedInput
  | .parsed pairs =>
    match Json.lookup pairs "folders" with
    | none => .error .missingKey
    | some v => .ok v

/-- The exit-code mapping of `main` in
`build/generate_postman_collection_subset.py`: 0 on success, 2 for
`FileNotFoundError`, 3 for `JSONDecodeError` and for `KeyError`, 1 for
any other exception. -/
def exitCode : Except AppError Json → Nat
  | .ok _ => 0
  | .error .notFound => 2
  | .error .malformedInput => 3
  | .error .missingKey => 3
  | .error .other => 1

/-- Keys of a dict are pairwise distinct (Python dicts cannot hold
duplicate keys); stated via lookup on the tail. -/
def keysNodup : List (String × Json) → Bool
  | [] => true
  | (k, _) :: rest => !(hasKey rest k) && keysNodup rest

mutual

/-- Every mapping anywhere in the tree has duplicate-free keys: the
well-formedness every tree decoded from JSON text satisfies. -/
def nodupWF : Json → Bool
  | .obj pairs => keysNodup pairs && nodupWFPairs pairs
  | .arr xs => nodupWFList xs
  | _ => true

def nodupWFPairs : List (String × Json) → Bool
  | [] => true
  | (_, v) :: rest => nodupWF v && nodupWFPairs rest

def nodupWFList : List Json → Bool
  | [] => true
  | x :: xs => nodupWF x && nodupWFList xs

end

mutual

/-- No mapping anywhere in the tree has a key literally `description`. -/
def noDesc : Json → Bool
  | .obj pairs => !(hasKey pairs "description") && noDescPairs pairs
  | .arr xs => noDescList xs
  | _ => true

def noDescPairs : List (String × Json) → Bool
  | [] => true
  | (_, v) :: rest => noDesc v && noDescPairs rest

def noDescList : List Json → Bool
  | [] => true
  | x :: xs => noDesc x && noDescList xs

end

/-- The mapping looks like a Request whose method is the target: it has a
`request` key bound to a mapping whose `method` is the string `m`. -/
def isMatchingReq (m : String) (pairs : List (String × Json)) : Bool :=
  match Json.lookup pairs "request" with
  | some (.obj rp) =>
    match Json.lookup rp "method" with
    | some mv => decide (mv = .str m)
    | none => false
  | _ => false

mutual

/-- Every mapping in the tree that has a `request` key bound to a mapping
with a `method` key has that method equal to the string `m`. -/
def methodsOK (m : String) : Json → Bool
  | .obj pairs => !(requestMismatch m pairs) && methodsOKPairs m pairs
  | .arr xs => methodsOKList m xs
  | _ => true

def methodsOKPairs (m : String) : List (String × Json) → Bool
  | [] => true
  | (_, v) :: rest => methodsOK m v && methodsOKPairs m rest

def methodsOKList (m : String) : List Json → Bool
  | [] => true
  | x :: xs => methodsOK m x && methodsOKList m xs

end

mutual

/-- Somewhere in the tree there is a mapping with `request.method` equal
to the string `m` — a surviving endpoint of the requested type. -/
def hasMatch (m : String) : Json → Bool
  | .obj pairs => isMatchingReq m pairs || hasMatchPairs m pairs
  | .arr xs => hasMatchList m xs
  | _ => false

def hasMatchPairs (m : String) : List (String × Json) → Bool
  | [] => false
  | (_, v) :: rest => hasMatch m v || hasMatchPairs m rest

def hasMatchList (m : String) : List Json → Bool
  | [] => false
  | x :: xs => hasMatch m x || hasMatchList m xs

end

mutual

/-- Every sequence anywhere in the tree is non-empty. -/
def arrsNonempty : Json → Bool
  | .obj pairs => arrsNonemptyPairs pairs
  | .arr xs => !xs.isEmpty && arrsNonemptyList xs
  | _ => true

def arrsNonemptyPairs : List (String × Json) → Bool
  | [] => true
  | (_, v) :: rest => arrsNonempty v && arrsNonemptyPairs rest

def arrsNonemptyList : List Json → Bool
  | [] => true
  | x :: xs => arrsNonempty x && arrsNonemptyList xs

end

/-- An element of an `item` sequence as the spec's data model describes it
(section 3): a Request — a mapping holding a `request` mapping with a
string `method`, where neither mapping reuses the structural keys `item`
or `request` — or a Folder — a mapping with no `request` key whose `item`
is a sequence of such elements. -/
inductive ItemOK : Json → Prop where
  | request : ∀ pairs rp m,
      Json.lookup pairs "request" = some (.obj rp) →
      Json.lookup pairs "item" = none →
      Json.lookup rp "method" = some (.str m) →
      Json.lookup rp "item" = none →
      Json.lookup rp "request" = none →
      ItemOK (.obj pairs)
  | folder : ∀ pairs elems,
      Json.lookup pairs "request" = none →
      Json.lookup pairs "item" = some (.arr elems) →
      (∀ e ∈ elems, ItemOK e) →
      ItemOK (.obj pairs)

/-! ### Basic lemmas about lookup and the pointwise predicates -/

theorem lookup_mem {pairs : List (String × Json)} {k : String} {v : Json}
    (h : Json.lookup pairs k = some v) : (k, v) ∈ pairs := by
  induction pairs with
  | nil => simp [Json.lookup] at h
  | cons p rest ih =>
    obtain ⟨k0, v0⟩ := p
    by_cases hk : k0 = k
    · subst hk
      simp [Json.lookup] at h
      simp [h]
    · simp [Json.lookup, hk] at h
      exact List.mem_cons_of_mem _ (ih h)

theorem nodupWFPairs_iff (pairs : List (String × Json)) :
    nodupWFPairs pairs = true ↔ ∀ p ∈ pairs, nodupWF p.2 = true := by
  induction pairs with
  | nil => simp [nodupWFPairs]
  | cons p rest ih => obtain ⟨k, v⟩ := p; simp [nodupWFPairs, ih]

theorem nodupWFList_iff (xs : List Json) :
    nodupWFList xs = true ↔ ∀ x ∈ xs, nodupWF x = true := by
  induction xs with
  | nil => simp [nodupWFList]
  | cons x rest ih => simp [nodupWFList, ih]

theorem methodsOKPairs_iff (m : String) (pairs : List (String × Json)) :
    methodsOKPairs m pairs = true ↔ ∀ p ∈ pairs, methodsOK m p.2 = true := by
  induction pairs with
  | nil => simp [methodsOKPairs]
  | cons p rest ih => obtain ⟨k, v⟩ := p; simp [methodsOKPairs, ih]

theorem methodsOKList_iff (m : String) (xs : List Json) :
    methodsOKList m xs = true ↔ ∀ x ∈ xs, methodsOK m x = true := by
  induction xs with
  | nil => simp [methodsOKList]
  | cons x rest ih => simp [methodsOKList, ih]

theorem hasMatchPairs_iff (m : String) (pairs : List (String × Json)) :
    hasMatchPairs m pairs = true ↔ ∃ p ∈ pairs, hasMatch m p.2 = true := by
  induction pairs with
  | nil => simp [hasMatchPairs]
  | cons p rest ih => obtain ⟨k, v⟩ := p; simp [hasMatchPairs, ih]

theorem hasMatchList_iff (m : String) (xs : List Json) :
    hasMatchList m xs = true ↔ ∃ x ∈ xs, hasMatch m x = true := by
  induction xs with
  | nil => simp [hasMatchList]
  | cons x rest ih => simp [hasMatchList, ih]

theorem noDescPairs_iff (pairs : List (String × Json)) :
    noDescPairs pairs = true ↔ ∀ p ∈ pairs, noDesc p.2 = true := by
  induction pairs with
  | nil => simp [noDescPairs]
  | cons p rest ih => obtain ⟨k, v⟩ := p; simp [noDescPairs, ih]

theorem noDescList_iff (xs : List Json) :
    noDescList xs = true ↔ ∀ x ∈ xs, noDesc x = true := by
  induction xs with
  | nil => simp [noDescList]
  | cons x rest ih => simp [noDescList, ih]

theorem arrsNonemptyPairs_iff (pairs : List (String × Json)) :
    arrsNonemptyPairs pairs = true ↔ ∀ p ∈ pairs, arrsNonempty p.2 = true := by
  induction pairs with
  | nil => simp [arrsNonemptyPairs]
  | cons p rest ih => obtain ⟨k, v⟩ := p; simp [arrsNonemptyPairs, ih]

theorem arrsNonemptyList_iff (xs : List Json) :
    arrsNonemptyList xs = true ↔ ∀ x ∈ xs, arrsNonempty x = true := by
  induction xs with
  | nil => simp [arrsNonemptyList]
  | cons x rest ih => simp [arrsNonemptyList, ih]

/-! ### Lemmas about the endpoint-type filter -/

theorem mem_filterPairs {m : String} {pairs : List (String × Json)}
    {k : String} {v' : Json} (h : (k, v') ∈ filterPairs m pairs) :
    ∃ v, (k, v) ∈ pairs ∧ filterByEndpointType m v = some v' := by
  induction pairs with
  | nil => simp [filterPairs] at h
  | cons p rest ih =>
    obtain ⟨k0, v0⟩ := p
    rw [filterPairs] at h
    cases hf : filterByEndpointType m v0 with
    | none =>
      rw [hf] at h
      obtain ⟨v, hv, he⟩ := ih h
      exact ⟨v, List.mem_cons_of_mem _ hv, he⟩
    | some w =>
      rw [hf] at h
      rcases List.mem_cons.mp h with hhead | htail
      · obtain ⟨h1, h2⟩ := Prod.mk.injEq .. ▸ hhead
        exact ⟨v0, by simp [h1], by rw [hf, h2]⟩
      · obtain ⟨v, hv, he⟩ := ih htail
        exact ⟨v, List.mem_cons_of_mem _ hv, he⟩

theorem mem_filterList {m : String} {xs : List Json} {y : Json}
    (h : y ∈ filterList m xs) :
    ∃ x ∈ xs, filterByEndpointType m x = some y := by
  induction xs with
  | nil => simp [filterList] at h
  | cons x rest ih =>
    rw [filterList] at h
    cases hf : filterByEndpointType m x with
    | none =>
      rw [hf] at h
      obtain ⟨z, hz, he⟩ := ih h
      exact ⟨z, List.mem_cons_of_mem _ hz, he⟩
    | some w =>
      rw [hf] at h
      rcases List.mem_cons.mp h with hhead | htail
      · exact ⟨x, by simp, by rw [hf, hhead]⟩
      · obtain ⟨z, hz, he⟩ := ih htail
        exact ⟨z, List.mem_cons_of_mem _ hz, he⟩

theorem lookup_filterPairs_of_hasKey_false {m : String}
    {pairs : List (String × Json)} {k : String}
    (h : hasKey pairs k = false) :
    Json.lookup (filterPairs m pairs) k = none := by
  induction pairs with
  | nil => simp [filterPairs, Json.lookup]
  | cons p rest ih =>
    obtain ⟨k0, v0⟩ := p
    have hne : k0 ≠ k := by
      intro he
      simp [hasKey, Json.lookup, he] at h
    have hrest : hasKey rest k = false := by
      simpa [hasKey, Json.lookup, hne] using h
    rw [filterPairs]
    cases hf : filterByEndpointType m v0 with
    | none => exact ih hrest
    | some w => simp [Json.lookup, hne, ih hrest]

/-- On a duplicate-free dict, looking a key up in the rebuilt dict of
`filter_by_endpoint_type` gives exactly the filtered original value. -/
theorem lookup_filterPairs {m : String} {pairs : List (String × Json)}
    (hnd : keysNodup pairs = true) (k : String) :
    Json.lookup (filterPairs m pairs) k
      = (Json.lookup pairs k).bind (filterByEndpointType m) := by
  induction pairs with
  | nil => simp [filterPairs, Json.lookup]
  | cons p rest ih =>
    obtain ⟨k0, v0⟩ := p
    rw [keysNodup] at hnd
    have hnd0 : hasKey rest k0 = false := by
      rcases Bool.and_eq_true .. ▸ hnd with ⟨h1, _⟩
      simpa using h1
    have hndrest : keysNodup rest = true := by
      rcases Bool.and_eq_true .. ▸ hnd with ⟨_, h2⟩
      exact h2
    by_cases hk : k0 = k
    · subst hk
      rw [filterPairs]
      cases hf : filterByEndpointType m v0 with
      | none =>
        simp [Json.lookup, hf]
        exact lookup_filterPairs_of_hasKey_false hnd0
      | some w => simp [Json.lookup, hf]
    · rw [filterPairs]
      cases hf : filterByEndpointType m v0 with
      | none => simp [Json.lookup, hk, ih hndrest]
      | some w => simp [Json.lookup, hk, ih hndrest]

/-! ### Shape of the endpoint filter's results -/

theorem filter_obj_some {m : String} {pairs : List (String × Json)} {r : Json}
    (h : filterByEndpointType m (.obj pairs) = some r) :
    requestMismatch m pairs = false ∧ r = .obj (filterPairs m pairs) ∧
    (hasKey pairs "item" && itemGetFalsy (filterPairs m pairs)) = false := by
  rw [filterByEndpointType] at h
  by_cases h1 : requestMismatch m pairs = true
  · simp [h1] at h
  · simp only [Bool.not_eq_true] at h1
    simp only [h1, if_false, Bool.false_eq_true] at h
    by_cases h2 : (hasKey pairs "item" && itemGetFalsy (filterPairs m pairs)) = true
    · simp [h2] at h
    · simp only [Bool.not_eq_true] at h2
      simp only [h2, if_false, Bool.false_eq_true, Option.some.injEq] at h
      exact ⟨h1, h.symm, h2⟩

theorem filter_arr_some {m : String} {xs : List Json} {r : Json}
    (h : filterByEndpointType m (.arr xs) = some r) :
    r = .arr (filterList m xs) ∧ filterList m xs ≠ [] := by
  rw [filterByEndpointType] at h
  by_cases h1 : (filterList m xs).isEmpty = true
  · simp [h1] at h
  · simp only [Bool.not_eq_true] at h1
    simp only [h1, if_false, Bool.false_eq_true, Option.some.injEq] at h
    exact ⟨h.symm, by simpa using h1⟩

theorem nodupWF_obj {pairs : List (String × Json)}
    (h : nodupWF (.obj pairs) = true) :
    keysNodup pairs = true ∧ ∀ p ∈ pairs, nodupWF p.2 = true := by
  rw [nodupWF, Bool.and_eq_true, nodupWFPairs_iff] at h
  exact h

theorem nodupWF_arr {xs : List Json} (h : nodupWF (.arr xs) = true) :
    ∀ x ∈ xs, nodupWF x = true := by
  rw [nodupWF, nodupWFList_iff] at h
  exact h

/-- Filtering a dict that passed the method check never reintroduces a
mismatching `request.method`: the rebuilt dict also passes the check. -/
theorem requestMismatch_filterPairs {m : String} {pairs : List (String × Json)}
    (hnd : keysNodup pairs = true)
    (hvals : ∀ p ∈ pairs, nodupWF p.2 = true)
    (hmm : requestMismatch m pairs = false) :
    requestMismatch m (filterPairs m pairs) = false := by
  rw [requestMismatch, lookup_filterPairs hnd]
  cases hlr : Json.lookup pairs "request" with
  | none => rfl
  | some v =>
    cases v with
    | obj rp =>
      simp only [Option.some_bind]
      cases hfv : filterByEndpointType m (.obj rp) with
      | none => rfl
      | some w =>
        obtain ⟨hmm2, hw, _⟩ := filter_obj_some hfv
        subst hw
        have hndrp : keysNodup rp = true :=
          (nodupWF_obj (hvals _ (lookup_mem hlr))).1
        show (match Json.lookup (filterPairs m rp) "method" with
              | some mv => decide (mv ≠ Json.str m)
              | none => false) = false
        rw [lookup_filterPairs hndrp]
        cases hlm : Json.lookup rp "method" with
        | none => rfl
        | some mv =>
          simp only [requestMismatch, hlr, hlm] at hmm
          have hmv : mv = .str m := by simpa using hmm
          subst hmv
          simp [filterByEndpointType]
    | arr xs =>
      simp only [Option.some_bind]
      cases hfv : filterByEndpointType m (.arr xs) with
      | none => rfl
      | some w =>
        obtain ⟨hw, _⟩ := filter_arr_some hfv
        subst hw
        rfl
    | null => simp [filterByEndpointType]
    | bool b => simp [filterByEndpointType]
    | num n => simp [filterByEndpointType]
    | str s =>
      simp [filterByEndpointType]

/-- After endpoint filtering, every surviving mapping that has a
`request` mapping with a `method` has that method equal to the target. -/
theorem filter_methodsOK (m : String) :
    ∀ t, nodupWF t = true → ∀ r, filterByEndpointType m t = some r →
      methodsOK m r = true := by
  intro t
  induction t using jsonInd with
  | hnull => intro _ r h; simp [filterByEndpointType] at h; subst h; rfl
  | hbool b => intro _ r h; simp [filterByEndpointType] at h; subst h; rfl
  | hnum n => intro _ r h; simp [filterByEndpointType] at h; subst h; rfl
  | hstr s => intro _ r h; simp [filterByEndpointType] at h; subst h; rfl
  | harr xs ih =>
    intro hnd r h
    obtain ⟨hr, _⟩ := filter_arr_some h
    subst hr
    show methodsOKList m (filterList m xs) = true
    rw [methodsOKList_iff]
    intro y hy
    obtain ⟨x, hx, hfx⟩ := mem_filterList hy
    exact ih x hx (nodupWF_arr hnd x hx) y hfx
  | hobj pairs ih =>
    intro hnd r h
    obtain ⟨hmm, hr, _⟩ := filter_obj_some h
    subst hr
    obtain ⟨hknd, hvals⟩ := nodupWF_obj hnd
    show (!(requestMismatch m (filterPairs m pairs))
      && methodsOKPairs m (filterPairs m pairs)) = true
    rw [Bool.and_eq_true]
    refine ⟨?_, ?_⟩
    · rw [requestMismatch_filterPairs hknd hvals hmm]
      rfl
    · rw [methodsOKPairs_iff]
      intro p hp
      obtain ⟨k, v'⟩ := p
      obtain ⟨v, hv, hfv⟩ := mem_filterPairs hp
      exact ih (k, v) hv (hvals (k, v) hv) v' hfv

/-- A well-formed item (Folder or Request) that survives endpoint
filtering contains a request of the target method: contrapositively, a
folder with no surviving matching request underneath is absent. -/
theorem filter_survivor_hasMatch (m : String) :
    ∀ e, ItemOK e → nodupWF e = true → ∀ r, filterByEndpointType m e = some r →
      hasMatch m r = true := by
  intro e hOK
  induction hOK with
  | request pairs rp mm hreq hitem hmeth hrpitem hrpreq =>
    intro hnd r h
    obtain ⟨hmm, hr, _⟩ := filter_obj_some h
    subst hr
    obtain ⟨hknd, hvals⟩ := nodupWF_obj hnd
    simp only [requestMismatch, hreq, hmeth] at hmm
    have hmv : mm = m := by simpa using hmm
    subst hmv
    have hndrp : keysNodup rp = true :=
      (nodupWF_obj (hvals _ (lookup_mem hreq))).1
    have hmmrp : requestMismatch mm rp = false := by
      simp [requestMismatch, hrpreq]
    have hkeyrp : hasKey rp "item" = false := by
      simp [hasKey, hrpitem]
    have hfrp : filterByEndpointType mm (.obj rp)
        = some (.obj (filterPairs mm rp)) := by
      rw [filterByEndpointType]
      simp [hmmrp, hkeyrp]
    show (isMatchingReq mm (filterPairs mm pairs)
      || hasMatchPairs mm (filterPairs mm pairs)) = true
    rw [Bool.or_eq_true]
    left
    rw [isMatchingReq, lookup_filterPairs hknd, hreq]
    simp only [Option.some_bind, hfrp]
    show (match Json.lookup (filterPairs mm rp) "method" with
          | some mv => decide (mv = Json.str mm)
          | none => false) = true
    rw [lookup_filterPairs hndrp, hmeth]
    simp [filterByEndpointType]
  | folder pairs elems hreq hitem hall ih =>
    intro hnd r h
    obtain ⟨hmm, hr, hdrop⟩ := filter_obj_some h
    subst hr
    obtain ⟨hknd, hvals⟩ := nodupWF_obj hnd
    have hkey : hasKey pairs "item" = true := by simp [hasKey, hitem]
    rw [hkey, Bool.true_and] at hdrop
    have hlook : Json.lookup (filterPairs m pairs) "item"
        = filterByEndpointType m (.arr elems) := by
      rw [lookup_filterPairs hknd, hitem, Option.some_bind]
    cases hfa : filterByEndpointType m (.arr elems) with
    | none =>
      rw [itemGetFalsy, hlook, hfa] at hdrop
      simp at hdrop
    | some v =>
      obtain ⟨hv, hne⟩ := filter_arr_some hfa
      subst hv
      obtain ⟨y, hy⟩ := List.exists_mem_of_ne_nil (filterList m elems) hne
      obtain ⟨x, hx, hfx⟩ := mem_filterList hy
      have hndx : nodupWF x = true :=
        nodupWF_arr (hvals _ (lookup_mem hitem)) x hx
      have hmatch := ih x hx hndx y hfx
      show (isMatchingReq m (filterPairs m pairs)
        || hasMatchPairs m (filterPairs m pairs)) = true
      rw [Bool.or_eq_true]
      right
      rw [hasMatchPairs_iff]
      refine ⟨("item", .arr (filterList m elems)), lookup_mem ?_, ?_⟩
      · rw [hlook, hfa]
      · show hasMatchList m (filterList m elems) = true
        rw [hasMatchList_iff]
        exact ⟨y, hy, hmatch⟩

/-- A document whose single request has a non-matching method filters to
an absent (`None`) root. -/
theorem filter_single_nonmatching_none (m mm nm : String) (hne : mm ≠ m) :
    filterByEndpointType m
      (.obj [("item", .arr [.obj [("name", .str nm),
        ("request", .obj [("method", .str mm)])]])]) = none := by
  have hinner : filterByEndpointType m
      (.obj [("name", Json.str nm),
        ("request", .obj [("method", .str mm)])]) = none := by
    rw [filterByEndpointType]
    have : requestMismatch m [("name", Json.str nm),
        ("request", .obj [("method", .str mm)])] = true := by
      simp [requestMismatch, Json.lookup, hne]
    simp [this]
  rw [filterByEndpointType]
  have harr : filterByEndpointType m
      (.arr [.obj [("name", Json.str nm),
        ("request", .obj [("method", .str mm)])]]) = none := by
    rw [filterByEndpointType]
    simp [filterList, hinner]
  have hmm : requestMismatch m [("item", Json.arr [.obj [("name", .str nm),
      ("request", .obj [("method", .str mm)])]])] = false := by
    simp [requestMismatch, Json.lookup]
  have hpairs : filterPairs m [("item", Json.arr [.obj [("name", .str nm),
      ("request", .obj [("method", .str mm)])]])] = [] := by
    rw [filterPairs, harr]
    rfl
  simp [hmm, hpairs, hasKey, Json.lookup, itemGetFalsy]

/-! ### Lemmas about the description stripper -/

theorem lookup_removeDescPairs_desc (pairs : List (String × Json)) :
    Json.lookup (removeDescPairs pairs) "description" = none := by
  induction pairs with
  | nil => rfl
  | cons p rest ih =>
    obtain ⟨k, v⟩ := p
    rw [removeDescPairs]
    by_cases hk : k = "description"
    · simp [hk, ih]
    · simp [Json.lookup, hk, ih]

theorem mem_removeDescPairs {pairs : List (String × Json)} {k : String}
    {v' : Json} (h : (k, v') ∈ removeDescPairs pairs) :
    ∃ v, (k, v) ∈ pairs ∧ v' = remove_descriptions v := by
  induction pairs with
  | nil => simp [removeDescPairs] at h
  | cons p rest ih =>
    obtain ⟨k0, v0⟩ := p
    rw [removeDescPairs] at h
    by_cases hk : k0 = "description"
    · rw [if_pos hk] at h
      obtain ⟨v, hv, he⟩ := ih h
      exact ⟨v, List.mem_cons_of_mem _ hv, he⟩
    · rw [if_neg hk] at h
      rcases List.mem_cons.mp h with hhead | htail
      · obtain ⟨h1, h2⟩ := Prod.mk.injEq .. ▸ hhead
        exact ⟨v0, by simp [h1], h2⟩
      · obtain ⟨v, hv, he⟩ := ih htail
        exact ⟨v, List.mem_cons_of_mem _ hv, he⟩

theorem mem_removeDescList {xs : List Json} {y : Json}
    (h : y ∈ removeDescList xs) : ∃ x ∈ xs, y = remove_descriptions x := by
  induction xs with
  | nil => simp [removeDescList] at h
  | cons x rest ih =>
    rw [removeDescList] at h
    rcases List.mem_cons.mp h with hhead | htail
    · exact ⟨x, by simp, hhead⟩
    · obtain ⟨z, hz, he⟩ := ih htail
      exact ⟨z, List.mem_cons_of_mem _ hz, he⟩

/-- The stripped tree has no `description` key at any depth. -/
theorem noDesc_remove : ∀ t, noDesc (remove_descriptions t) = true := by
  intro t
  induction t using jsonInd with
  | hnull => rfl
  | hbool b => rfl
  | hnum n => rfl
  | hstr s => rfl
  | harr xs ih =>
    show noDescList (removeDescList xs) = true
    rw [noDescList_iff]
    intro y hy
    obtain ⟨x, hx, he⟩ := mem_removeDescList hy
    exact he ▸ ih x hx
  | hobj pairs ih =>
    show (!(hasKey (removeDescPairs pairs) "description")
      && noDescPairs (removeDescPairs pairs)) = true
    rw [Bool.and_eq_true]
    refine ⟨?_, ?_⟩
    · simp [hasKey, lookup_removeDescPairs_desc]
    · rw [noDescPairs_iff]
      intro p hp
      obtain ⟨k, v'⟩ := p
      obtain ⟨v, hv, he⟩ := mem_removeDescPairs hp
      exact he ▸ ih (k, v) hv

theorem removeDescPairs_id (pairs : List (String × Json))
    (ih : ∀ p ∈ pairs, noDesc p.2 = true → remove_descriptions p.2 = p.2)
    (hkey : hasKey pairs "description" = false)
    (hall : ∀ p ∈ pairs, noDesc p.2 = true) :
    removeDescPairs pairs = pairs := by
  induction pairs with
  | nil => rfl
  | cons p rest ihl =>
    obtain ⟨k, v⟩ := p
    have hk : k ≠ "description" := by
      intro he
      simp [hasKey, Json.lookup, he] at hkey
    have hkeyrest : hasKey rest "description" = false := by
      simpa [hasKey, Json.lookup, hk] using hkey
    rw [removeDescPairs, if_neg hk,
      ih (k, v) (by simp) (hall (k, v) (by simp)),
      ihl (fun p hp h => ih p (List.mem_cons_of_mem _ hp) h) hkeyrest
        (fun p hp => hall p (List.mem_cons_of_mem _ hp))]

theorem removeDescList_id (xs : List Json)
    (ih : ∀ x ∈ xs, noDesc x = true → remove_descriptions x = x)
    (hall : ∀ x ∈ xs, noDesc x = true) :
    removeDescList xs = xs := by
  induction xs with
  | nil => rfl
  | cons x rest ihl =>
    rw [removeDescList, ih x (by simp) (hall x (by simp)),
      ihl (fun z hz h => ih z (List.mem_cons_of_mem _ hz) h)
        (fun z hz => hall z (List.mem_cons_of_mem _ hz))]

/-- The stripper returns description-free trees unchanged. -/
theorem remove_id_of_noDesc : ∀ t, noDesc t = true → remove_descriptions t = t := by
  intro t
  induction t using jsonInd with
  | hnull => intro _; rfl
  | hbool b => intro _; rfl
  | hnum n => intro _; rfl
  | hstr s => intro _; rfl
  | harr xs ih =>
    intro h
    rw [remove_descriptions]
    rw [noDesc, noDescList_iff] at h
    rw [removeDescList_id xs ih h]
  | hobj pairs ih =>
    intro h
    rw [remove_descriptions]
    rw [noDesc, Bool.and_eq_true, noDescPairs_iff] at h
    rw [removeDescPairs_id pairs ih (by simpa using h.1) h.2]

/-- Exact description of the dict branch: non-`description` keys are kept
in their original relative order with recursively stripped values. -/
theorem removeDescPairs_eq (pairs : List (String × Json)) :
    removeDescPairs pairs
      = (pairs.filter (fun kv => !(kv.1 == "description"))).map
          (fun kv => (kv.1, remove_descriptions kv.2)) := by
  induction pairs with
  | nil => rfl
  | cons p rest ih =>
    obtain ⟨k, v⟩ := p
    rw [removeDescPairs]
    by_cases hk : k = "description"
    · simp [hk, ih]
    · simp [hk, ih]

theorem removeDescList_eq (xs : List Json) :
    removeDescList xs = xs.map remove_descriptions := by
  induction xs with
  | nil => rfl
  | cons x rest ih => rw [removeDescList, ih]; rfl

/-- C2: after stripping, no mapping at any depth has a key literally
`description`; every mapping keeps exactly its other keys, in their
original relative order, each bound to its recursively stripped value (so
values already free of `description` keys are unchanged in value); and a
top-level scalar passes through unchanged. -/
theorem remove_descriptions_correct :
    (∀ t, noDesc (remove_descriptions t) = true)
    ∧ (∀ pairs, remove_descriptions (.obj pairs)
        = .obj ((pairs.filter (fun kv => !(kv.1 == "description"))).map
            (fun kv => (kv.1, remove_descriptions kv.2))))
    ∧ (∀ t, noDesc t = true → remove_descriptions t = t)
    ∧ (∀ b, remove_descriptions (.bool b) = .bool b)
    ∧ (∀ n, remove_descriptions (.num n) = .num n)
    ∧ (∀ s, remove_descriptions (.str s) = .str s)
    ∧ remove_descriptions .null = .null :=
  ⟨noDesc_remove,
   fun pairs => by rw [remove_descriptions, removeDescPairs_eq],
   remove_id_of_noDesc,
   fun _ => rfl, fun _ => rfl, fun _ => rfl, rfl⟩

/-- Witness for C2 at the spec's own scenario
`{"a":{"description":"d","b":1}}` (stripped to `{"a":{"b":1}}`) and at a
description-free tree. -/
theorem remove_descriptions_correct_witness :
    noDesc (remove_descriptions (.obj [("a", .obj [("description", .str "d"),
      ("b", .num 1)])])) = true
    ∧ remove_descriptions (.obj [("a", .obj [("b", .num 1)])])
      = .obj [("a", .obj [("b", .num 1)])] :=
  ⟨remove_descriptions_correct.1 _,
   remove_descriptions_correct.2.2.1 _ (by decide)⟩

/-- C3: the description stripper is idempotent. -/
theorem remove_descriptions_idempotent (t : Json) :
    remove_descriptions (remove_descriptions t) = remove_descriptions t :=
  remove_id_of_noDesc _ (noDesc_remove t)

/-- A concrete well-formed GET request item, used to instantiate the
universally quantified theorems. -/
theorem itemOK_example : ItemOK (.obj [("name", .str "A"),
    ("request", .obj [("method", .str "GET")])]) :=
  ItemOK.request [("name", .str "A"), ("request", .obj [("method", .str "GET")])]
    [("method", .str "GET")] "GET" (by decide) (by decide) (by decide)
    (by decide) (by decide)

/-- C1 counterexample: on an arbitrary JSON tree the folder-pruning clause
fails.  The mapping `{"item": ["x"]}` has an `item` key and contains no
request at all — matching or otherwise — yet endpoint filtering for GET
keeps it inside its parent's `item` sequence, because its bare-scalar
child survives the recursion. -/
theorem filter_by_endpoint_type_counterexample :
    filterByEndpointType "GET"
      (.obj [("item", .arr [.obj [("item", .arr [.str "x"])]])])
      = some (.obj [("item", .arr [.obj [("item", .arr [.str "x"])]])])
    ∧ hasMatch "GET" (.obj [("item", .arr [.str "x"])]) = false := by
  decide

/-- C1 (amended): for every duplicate-free tree, every mapping remaining
after endpoint filtering whose `request` is a mapping with a `method` has
that method equal to the target; every well-formed collection item (a
Folder or Request in the sense of the spec's data model) that survives
filtering contains a matching request — so a folder with no surviving
matching request underneath is entirely absent from its parent's `item`
sequence; and a document whose single request does not match filters to
an absent (`None`) root rather than an error. -/
theorem filter_by_endpoint_type_correct (m : String) :
    (∀ t, nodupWF t = true → ∀ r, filterByEndpointType m t = some r →
       methodsOK m r = true)
    ∧ (∀ e, ItemOK e → nodupWF e = true → ∀ r,
       filterByEndpointType m e = some r → hasMatch m r = true)
    ∧ (∀ mm nm, mm ≠ m → filterByEndpointType m
        (.obj [("item", .arr [.obj [("name", .str nm),
          ("request", .obj [("method", .str mm)])]])]) = none) :=
  ⟨filter_methodsOK m, filter_survivor_hasMatch m,
   fun mm nm h => filter_single_nonmatching_none m mm nm h⟩

/-- Witness for the amended C1 at the spec's GET/POST scenario. -/
theorem filter_by_endpoint_type_correct_witness :
    methodsOK "GET" (.obj [("item", .arr [.obj [("name", .str "A"),
      ("request", .obj [("method", .str "GET")])]])]) = true
    ∧ hasMatch "GET" (.obj [("name", .str "A"),
      ("request", .obj [("method", .str "GET")])]) = true
    ∧ filterByEndpointType "GET" (.obj [("item", .arr [.obj [("name", .str "B"),
      ("request", .obj [("method", .str "POST")])]])]) = none :=
  ⟨(filter_by_endpoint_type_correct "GET").1
      (.obj [("item", .arr [.obj [("name", .str "A"),
        ("request", .obj [("method", .str "GET")])]])])
      (by decide)
      (.obj [("item", .arr [.obj [("name", .str "A"),
        ("request", .obj [("method", .str "GET")])]])])
      (by decide),
   (filter_by_endpoint_type_correct "GET").2.1
      (.obj [("name", .str "A"), ("request", .obj [("method", .str "GET")])])
      itemOK_example (by decide)
      (.obj [("name", .str "A"), ("request", .obj [("method", .str "GET")])])
      (by decide),
   (filter_by_endpoint_type_correct "GET").2.2 "POST" "B" (by decide)⟩

/-- C7: a mapping with an `item` key whose recursively filtered `item`
value is absent — or an empty sequence — filters to absent as a whole. -/
theorem filter_drops_empty_or_absent_item :
    ∀ m pairs v, nodupWF (.obj pairs) = true →
      Json.lookup pairs "item" = some v →
      (filterByEndpointType m v = none
        ∨ filterByEndpointType m v = some (.arr [])) →
      filterByEndpointType m (.obj pairs) = none := by
  intro m pairs v hnd hl hcases
  obtain ⟨hknd, _⟩ := nodupWF_obj hnd
  rw [filterByEndpointType]
  by_cases hmm : requestMismatch m pairs = true
  · simp [hmm]
  · simp only [Bool.not_eq_true] at hmm
    have hkey : hasKey pairs "item" = true := by simp [hasKey, hl]
    have hfls : itemGetFalsy (filterPairs m pairs) = true := by
      rw [itemGetFalsy, lookup_filterPairs hknd, hl, Option.some_bind]
      rcases hcases with hc | hc
      · rw [hc]
      · rw [hc]
        rfl
    simp [hmm, hkey, hfls]

/-- Witness for C7: a folder whose only request is a POST is dropped
whole when filtering for GET. -/
theorem filter_drops_empty_or_absent_item_witness :
    filterByEndpointType "GET" (.obj [("name", .str "F"),
      ("item", .arr [.obj [("request", .obj [("method", .str "POST")])]])])
      = none :=
  filter_drops_empty_or_absent_item "GET"
    [("name", .str "F"),
     ("item", .arr [.obj [("request", .obj [("method", .str "POST")])]])]
    (.arr [.obj [("request", .obj [("method", .str "POST")])]])
    (by decide) (by decide) (Or.inl (by decide))

/-- Endpoint filtering never leaves an empty sequence anywhere in its
result. -/
theorem filter_arrsNonempty (m : String) :
    ∀ t r, filterByEndpointType m t = some r → arrsNonempty r = true := by
  intro t
  induction t using jsonInd with
  | hnull => intro r h; simp [filterByEndpointType] at h; subst h; rfl
  | hbool b => intro r h; simp [filterByEndpointType] at h; subst h; rfl
  | hnum n => intro r h; simp [filterByEndpointType] at h; subst h; rfl
  | hstr s => intro r h; simp [filterByEndpointType] at h; subst h; rfl
  | harr xs ih =>
    intro r h
    obtain ⟨hr, hne⟩ := filter_arr_some h
    subst hr
    show (!(filterList m xs).isEmpty
      && arrsNonemptyList (filterList m xs)) = true
    rw [Bool.and_eq_true]
    refine ⟨by simpa using hne, ?_⟩
    rw [arrsNonemptyList_iff]
    intro y hy
    obtain ⟨x, hx, hfx⟩ := mem_filterList hy
    exact ih x hx y hfx
  | hobj pairs ih =>
    intro r h
    obtain ⟨_, hr, _⟩ := filter_obj_some h
    subst hr
    show arrsNonemptyPairs (filterPairs m pairs) = true
    rw [arrsNonemptyPairs_iff]
    intro p hp
    obtain ⟨k, v'⟩ := p
    obtain ⟨v, hv, hfv⟩ := mem_filterPairs hp
    exact ih (k, v) hv v' hfv

/-- C9: a sequence input to the endpoint filter yields either absence or
the non-empty sequence of survivors, and consequently every sequence
anywhere inside any returned tree is non-empty. -/
theorem filter_no_empty_sequences (m : String) :
    (∀ xs r, filterByEndpointType m (.arr xs) = some r →
       r = .arr (filterList m xs) ∧ filterList m xs ≠ [])
    ∧ (∀ t r, filterByEndpointType m t = some r → arrsNonempty r = true) :=
  ⟨fun _ _ h => filter_arr_some h, filter_arrsNonempty m⟩

/-- Witness for C9 on a two-request sequence with one GET survivor. -/
theorem filter_no_empty_sequences_witness :
    (Json.arr [.obj [("request", .obj [("method", .str "GET")])]]
        = .arr (filterList "GET"
            [.obj [("request", .obj [("method", .str "GET")])],
             .obj [("request", .obj [("method", .str "POST")])]])
      ∧ filterList "GET"
          [.obj [("request", .obj [("method", .str "GET")])],
           .obj [("request", .obj [("method", .str "POST")])]] ≠ [])
    ∧ arrsNonempty (.arr [.obj [("request",
        .obj [("method", .str "GET")])]]) = true :=
  ⟨(filter_no_empty_sequences "GET").1
      [.obj [("request", .obj [("method", .str "GET")])],
       .obj [("request", .obj [("method", .str "POST")])]]
      (.arr [.obj [("request", .obj [("method", .str "GET")])]])
      (by decide),
   (filter_no_empty_sequences "GET").2
      (.arr [.obj [("request", .obj [("method", .str "GET")])],
             .obj [("request", .obj [("method", .str "POST")])]])
      (.arr [.obj [("request", .obj [("method", .str "GET")])]])
      (by decide)⟩

/-- C10: the rebuilt mapping omits any key whose sequence value filters
to empty — not only `item` — so a matching request carrying
`"response": []` is returned without that key rather than verbatim. -/
theorem filter_omits_empty_sequence_keys :
    (∀ m pairs k xs, nodupWF (.obj pairs) = true →
       Json.lookup pairs k = some (.arr xs) → filterList m xs = [] →
       Json.lookup (filterPairs m pairs) k = none)
    ∧ filterByEndpointType "GET" (.obj [("name", .str "A"),
        ("request", .obj [("method", .str "GET")]), ("response", .arr [])])
      = some (.obj [("name", .str "A"),
          ("request", .obj [("method", .str "GET")])]) := by
  constructor
  · intro m pairs k xs hnd hl hempty
    obtain ⟨hknd, _⟩ := nodupWF_obj hnd
    rw [lookup_filterPairs hknd, hl, Option.some_bind, filterByEndpointType]
    simp [hempty]
  · decide

/-- Witness for C10: the `response` key bound to `[]` disappears. -/
theorem filter_omits_empty_sequence_keys_witness :
    Json.lookup (filterPairs "GET" [("name", .str "A"),
      ("request", .obj [("method", .str "GET")]), ("response", .arr [])])
      "response" = none :=
  filter_omits_empty_sequence_keys.1 "GET"
    [("name", .str "A"), ("request", .obj [("method", .str "GET")]),
     ("response", .arr [])]
    "response" [] (by decide) (by decide) (by decide)

/-! ### Lemmas about the whitelist filter and reader -/

/-- The membership test the source actually performs on a mapping
element: `item.get('name') in whitelist_folders`, with `None` (null)
standing in for a missing `name` and list membership tested by Python
`==` (`pyEq`). -/
def whitelistMatch (wl : List Json) : Json → Bool
  | .obj ps => wl.any (pyEq (pyGet ps "name"))
  | _ => false

theorem mem_filterItems {wl : List Json} {items kept : List Json}
    (h : filterItems wl items = some kept) :
    ∀ x ∈ kept, x ∈ items ∧ whitelistKeep wl x = some true := by
  induction items generalizing kept with
  | nil =>
    rw [filterItems] at h
    obtain rfl : ([] : List Json) = kept := by simpa using h
    simp
  | cons e rest ih =>
    rw [filterItems] at h
    cases hk : whitelistKeep wl e with
    | none => rw [hk] at h; simp at h
    | some b =>
      rw [hk] at h
      cases hr : filterItems wl rest with
      | none => rw [hr] at h; cases b <;> simp at h
      | some krest =>
        rw [hr] at h
        cases b with
        | true =>
          obtain rfl : e :: krest = kept := by simpa using h
          intro x hx
          rcases List.mem_cons.mp hx with rfl | hx2
          · exact ⟨by simp, hk⟩
          · obtain ⟨h1, h2⟩ := ih hr x hx2
            exact ⟨List.mem_cons_of_mem _ h1, h2⟩
        | false =>
          obtain rfl : krest = kept := by simpa using h
          intro x hx
          obtain ⟨h1, h2⟩ := ih hr x hx
          exact ⟨List.mem_cons_of_mem _ h1, h2⟩

/-- When every element is a mapping (as in a real collection) the list
comprehension succeeds and keeps exactly the matching elements, verbatim
and in order. -/
theorem filterItems_eq_of_objs {wl : List Json} {items : List Json}
    (h : ∀ e ∈ items, ∃ ps, e = Json.obj ps) :
    filterItems wl items = some (items.filter (whitelistMatch wl)) := by
  induction items with
  | nil => rfl
  | cons e rest ih =>
    obtain ⟨ps, rfl⟩ := h e (by simp)
    rw [filterItems, ih (fun z hz => h z (List.mem_cons_of_mem _ hz))]
    rw [whitelistKeep]
    cases hc : wl.any (pyEq (pyGet ps "name")) with
    | true =>
      simp only [List.filter_cons, whitelistMatch, hc, if_true]
    | false =>
      simp only [List.filter_cons, whitelistMatch, hc, Bool.false_eq_true,
        if_false]

theorem lookup_setKey_ne (pairs : List (String × Json)) (k0 : String)
    (v : Json) {k : String} (hk : k ≠ k0) :
    Json.lookup (setKey pairs k0 v) k = Json.lookup pairs k := by
  induction pairs with
  | nil => rfl
  | cons p rest ih =>
    obtain ⟨k1, v1⟩ := p
    rw [setKey]
    by_cases h1 : k1 = k0
    · rw [if_pos h1, Json.lookup, Json.lookup]
      have hka : ¬(k0 = k) := fun he => hk he.symm
      have hkb : ¬(k1 = k) := fun he => hka (h1.symm.trans he)
      rw [if_neg hka, if_neg hkb, ih]
    · rw [if_neg h1, Json.lookup, Json.lookup]
      by_cases h2 : k1 = k
      · rw [if_pos h2, if_pos h2]
      · rw [if_neg h2, if_neg h2, ih]

/-- Unfolding the whitelist filter on a mapping whose `item` is a
sequence. -/
theorem filterByWhitelistFolders_item_arr (pairs : List (String × Json))
    (wl : List Json) (items : List Json)
    (hl : Json.lookup pairs "item" = some (.arr items)) :
    filterByWhitelistFolders (.obj pairs) wl
      = match filterItems wl items with
        | some kept => some (.obj (setKey pairs "item" (.arr kept)))
        | none => none := by
  rw [filterByWhitelistFolders, hl]

/-- Value-level frame consequence of the whitelist filter for C8: when
the call succeeds on a mapping, every key other than the top-level `item`
is bound in the result exactly as in the input (the in-place mutation
itself — the source returns the very dict it was given — is a heap
notion outside this value-level model). -/
theorem filterByWhitelistFolders_frame (pairs : List (String × Json))
    (wl : List Json) (r : List (String × Json))
    (h : filterByWhitelistFolders (.obj pairs) wl = some (.obj r)) :
    ∀ k, k ≠ "item" → Json.lookup r k = Json.lookup pairs k := by
  intro k hk
  cases hl : Json.lookup pairs "item" with
  | none =>
    rw [filterByWhitelistFolders, hl] at h
    obtain rfl : pairs = r := by simpa using h
    rfl
  | some v =>
    cases v with
    | arr items =>
      rw [filterByWhitelistFolders_item_arr pairs wl items hl] at h
      cases hf : filterItems wl items with
      | none =>
        rw [hf] at h
        exact Option.noConfusion h
      | some kept =>
        rw [hf] at h
        obtain rfl : setKey pairs "item" (.arr kept) = r := by simpa using h
        exact lookup_setKey_ne pairs "item" _ hk
    | null => rw [filterByWhitelistFolders, hl] at h; exact Option.noConfusion h
    | bool b => rw [filterByWhitelistFolders, hl] at h; exact Option.noConfusion h
    | num n => rw [filterByWhitelistFolders, hl] at h; exact Option.noConfusion h
    | str s => rw [filterByWhitelistFolders, hl] at h; exact Option.noConfusion h
    | obj ps => rw [filterByWhitelistFolders, hl] at h; exact Option.noConfusion h

/-- The matching rule exactly as claim C4 and C5 word it: the element has
a `name` key and its value is a member of the whitelist. -/
def claimNameInWhitelist (wl : List Json) (e : Json) : Prop :=
  ∃ ps v, e = Json.obj ps ∧ Json.lookup ps "name" = some v ∧ v ∈ wl

/-- C4 counterexample: with the whitelist `[null]` the element `{}` has
no `name` value in the whitelist, yet it is kept — `item.get('name')`
yields `None`, which is a member of `[null]`. -/
theorem filter_by_whitelist_folders_counterexample :
    filterByWhitelistFolders (.obj [("item", .arr [.obj []])]) [Json.null]
      = some (.obj [("item", .arr [.obj []])])
    ∧ ¬ claimNameInWhitelist [Json.null] (.obj []) := by
  constructor
  · decide
  · rintro ⟨ps, v, he, hl, _⟩
    injection he with h1
    subst h1
    simp [Json.lookup] at hl

/-- C4 (amended): on a mapping whose `item` sequence holds mappings, the
filter keeps exactly — verbatim and in original order — the top-level
elements whose `name` value, with null standing in for a missing `name`
key, is a member of the whitelist; the empty whitelist matches nothing,
so the `item` sequence becomes empty; an `item`-less mapping and a
non-mapping input are returned unchanged; nothing below the top-level
`item` sequence is touched. -/
theorem filter_by_whitelist_folders_correct :
    (∀ pairs items wl, Json.lookup pairs "item" = some (.arr items) →
       (∀ e ∈ items, ∃ ps, e = Json.obj ps) →
       filterByWhitelistFolders (.obj pairs) wl
         = some (.obj (setKey pairs "item"
             (.arr (items.filter (whitelistMatch wl))))))
    ∧ (∀ items : List Json, items.filter (whitelistMatch []) = [])
    ∧ (∀ pairs wl, Json.lookup pairs "item" = none →
       filterByWhitelistFolders (.obj pairs) wl = some (.obj pairs))
    ∧ (∀ d wl, (∀ pairs, d ≠ .obj pairs) →
       filterByWhitelistFolders d wl = some d) := by
  refine ⟨?_, ?_, ?_, ?_⟩
  · intro pairs items wl hl hobjs
    rw [filterByWhitelistFolders_item_arr pairs wl items hl,
      filterItems_eq_of_objs hobjs]
  · intro items
    rw [List.filter_eq_nil_iff]
    intro e _
    cases e <;> simp [whitelistMatch]
  · intro pairs wl hl
    rw [filterByWhitelistFolders, hl]
  · intro d wl h
    cases d with
    | obj pairs => exact absurd rfl (h pairs)
    | null => rfl
    | bool b => rfl
    | num n => rfl
    | str s => rfl
    | arr xs => rfl

/-- Witness for the amended C4 at the spec's scenario: folders X and Y,
whitelist `["X"]`. -/
theorem filter_by_whitelist_folders_correct_witness :
    filterByWhitelistFolders (.obj [("info", .str "c"),
      ("item", .arr [.obj [("name", .str "X")], .obj [("name", .str "Y")]])])
      [.str "X"]
      = some (.obj [("info", .str "c"),
          ("item", .arr [.obj [("name", .str "X")]])]) := by
  have h := filter_by_whitelist_folders_correct.1
    [("info", .str "c"),
     ("item", .arr [.obj [("name", .str "X")], .obj [("name", .str "Y")]])]
    [.obj [("name", .str "X")], .obj [("name", .str "Y")]]
    [.str "X"] (by decide)
    (by
      intro e he
      simp at he
      rcases he with rfl | rfl
      · exact ⟨_, rfl⟩
      · exact ⟨_, rfl⟩)
  rw [h]
  decide

/-- C5 counterexample: for the whitelist `[null, "X"]` the top-level
element `{"x": 1}` lacks a `name` key, yet it is matched and kept. -/
theorem whitelist_nameless_counterexample :
    Json.lookup [("x", Json.num 1)] "name" = none
    ∧ filterByWhitelistFolders
        (.obj [("item", .arr [.obj [("x", .num 1)]])]) [Json.null, .str "X"]
      = some (.obj [("item", .arr [.obj [("x", .num 1)]])]) := by
  decide

/-- Python `None` equals only `None` among decoded JSON values, so for a
missing name the `==`-membership test coincides with structural
membership. -/
theorem pyEq_null (x : Json) : pyEq Json.null x = (Json.null == x) := by
  cases x <;> rfl

theorem any_pyEq_null (wl : List Json) :
    wl.any (pyEq Json.null) = wl.contains Json.null := by
  induction wl with
  | nil => rfl
  | cons w rest ih => rw [List.any_cons, List.contains_cons, pyEq_null, ih]

/-- C5 (amended): a top-level mapping element lacking a `name` key is
matched exactly when the whitelist contains null (its `get('name')` is
`None`); whenever the whitelist contains no null, such an element is
never kept. -/
theorem whitelist_nameless_matches_iff_null :
    (∀ wl ps, Json.lookup ps "name" = none →
       whitelistKeep wl (.obj ps) = some (wl.contains Json.null))
    ∧ (∀ wl items kept ps, Json.null ∉ wl →
       Json.lookup ps "name" = none →
       filterItems wl items = some kept → Json.obj ps ∉ kept) := by
  constructor
  · intro wl ps h
    rw [whitelistKeep, pyGet, h, Option.getD_none, any_pyEq_null]
  · intro wl items kept ps hnull hname hf hmem
    obtain ⟨_, hkeep⟩ := mem_filterItems hf _ hmem
    rw [whitelistKeep, pyGet, hname, Option.getD_none] at hkeep
    have h2 : wl.any (pyEq Json.null) = true := by simpa using hkeep
    rw [any_pyEq_null] at h2
    exact hnull (by simpa using h2)

/-- Witness for the amended C5: with whitelist `["X"]` (no null) the
nameless element is removed. -/
theorem whitelist_nameless_matches_iff_null_witness :
    whitelistKeep [Json.str "X"] (.obj [("x", .num 1)])
      = some (([Json.str "X"]).contains Json.null)
    ∧ Json.obj [("x", .num 1)] ∉ ([.obj [("name", .str "X")]] : List Json) :=
  ⟨whitelist_nameless_matches_iff_null.1 [Json.str "X"] [("x", .num 1)]
      (by decide),
   whitelist_nameless_matches_iff_null.2 [Json.str "X"]
      [.obj [("name", .str "X")], .obj [("x", .num 1)]]
      [.obj [("name", .str "X")]] [("x", .num 1)]
      (by decide) (by decide) (by decide)⟩

/-- C6: the whitelist reader's error taxonomy and the exit codes the
boundary maps them to: a missing file propagates as NotFound (exit 2),
a JSON parse failure as MalformedInput (exit 3), a parsed mapping without
a `folders` key as MissingKey (exit 3); a mapping with a `folders` key
yields exactly the stored value; success exits 0, any other error 1. -/
theorem read_whitelist_folders_errors :
    (read_whitelist_folders .notFound = .error .notFound
      ∧ exitCode (read_whitelist_folders .notFound) = 2)
    ∧ (read_whitelist_folders .malformed = .error .malformedInput
      ∧ exitCode (read_whitelist_folders .malformed) = 3)
    ∧ (∀ pairs, Json.lookup pairs "folders" = none →
        read_whitelist_folders (.parsed pairs) = .error .missingKey
          ∧ exitCode (read_whitelist_folders (.parsed pairs)) = 3)
    ∧ (∀ pairs v, Json.lookup pairs "folders" = some v →
        read_whitelist_folders (.parsed pairs) = .ok v
          ∧ exitCode (read_whitelist_folders (.parsed pairs)) = 0)
    ∧ (∀ v, exitCode (.ok v) = 0)
    ∧ exitCode (.error .other) = 1 := by
  refine ⟨⟨rfl, rfl⟩, ⟨rfl, rfl⟩, ?_, ?_, fun v => rfl, rfl⟩
  · intro pairs h
    rw [read_whitelist_folders, h]
    exact ⟨rfl, rfl⟩
  · intro pairs v h
    rw [read_whitelist_folders, h]
    exact ⟨rfl, rfl⟩

/-- Witness for C6 on concrete parsed documents. -/
theorem read_whitelist_folders_errors_witness :
    (read_whitelist_folders (.parsed [("x", .num 1)]) = .error .missingKey
      ∧ exitCode (read_whitelist_folders (.parsed [("x", .num 1)])) = 3)
    ∧ (read_whitelist_folders (.parsed [("folders", .arr [.str "X"])])
        = .ok (.arr [.str "X"])
      ∧ exitCode (read_whitelist_folders
          (.parsed [("folders", .arr [.str "X"])])) = 0) :=
  ⟨read_whitelist_folders_errors.2.2.1 [("x", .num 1)] (by decide),
   read_whitelist_folders_errors.2.2.2.1 [("folders", .arr [.str "X"])]
     (.arr [.str "X"]) (by decide)⟩
